import Mathlib

/-!
Shallow embedding of the azure_lock_remover core: lock-scope parsing
(src/azure_lock_remover/parser.py), retry with exponential backoff
(src/azure_lock_remover/retry.py) and lock operations
(src/azure_lock_remover/operations.py).

Python strings are modelled as lists of characters; each Python string
operation used by the source (lower, find, the membership test, split on
a slash, join with a slash, rstrip of slashes, slicing) is translated as
an explicit function below.  Exceptions are modelled with Option/Except;
the external Azure gateway is an oracle parameter, and its invocations
are collected in explicit traces so that effect claims can be stated.
-/

/-- Python strings, modelled as lists of characters. -/
abbrev Str := List Char

/-- Python str.lower, modelled character-wise; every keyword comparison in
the source involves only ASCII characters, where this model is exact. -/
def lowerStr (s : Str) : Str := s.map Char.toLower

/-- Boolean test that the first list is a leading piece of the second. -/
def isPre : Str → Str → Bool
  | [], _ => true
  | _ :: _, [] => false
  | a :: p, b :: t => a == b && isPre p t

/-- Python str.find for a pattern: the index of the first occurrence,
none when the pattern is absent (Python returns -1 there). -/
def findSub (pat : Str) : Str → Option Nat
  | [] => if isPre pat [] then some 0 else none
  | c :: t => if isPre pat (c :: t) then some 0 else (findSub pat t).map (fun n => n + 1)

/-- Python substring membership (sub in s), which holds exactly when find
does not return -1. -/
def containsSub (pat s : Str) : Bool := (findSub pat s).isSome

/-- Python s.split for the single-character separator slash; empty pieces
are kept and the result is never the empty list. -/
def splitSlash : Str → List Str
  | [] => [[]]
  | c :: t =>
    if c = '/' then [] :: splitSlash t
    else
      match splitSlash t with
      | [] => [[c]]
      | h :: r => (c :: h) :: r

/-- Python slash.join, the join used to rebuild the resource name. -/
def joinSlash : List Str → Str
  | [] => []
  | [x] => x
  | x :: r => x ++ '/' :: joinSlash r

/-- Python s.rstrip removing every trailing slash. -/
def rstripSlash (s : Str) : Str := (s.reverse.dropWhile (fun c => c == '/')).reverse

/-- The literal searched for by parser.py when classifying scopes. -/
def rgPat : Str := "/resourcegroups/".toList

/-- The literal whose presence in the remainder selects the resource case. -/
def provPat : Str := "/providers/".toList

/-- The bare word compared against lowered segments in the linear scan. -/
def providersWord : Str := "providers".toList

/-- The marker split off a lock id in operations.py remove_lock. -/
def locksMarker : Str := "/providers/Microsoft.Authorization/locks/".toList

/-- The structured scope descriptor produced by parser.py, a dictionary
with a type tag in the source. -/
inductive ScopeInfo : Type where
  | subscription : ScopeInfo
  | resourceGroup (resourceGroupName : Str) : ScopeInfo
  | resource (resourceGroupName provider resourceType resourceName : Str) : ScopeInfo
  deriving DecidableEq

/-- parser.py _parse_subscription_scope: any scope without a
resourcegroups segment is reported as subscription level. -/
def parse_subscription_scope (_lock_scope : Str) : Option ScopeInfo :=
  some .subscription

/-- parser.py _parse_resource_scope, the linear scan locating the first
part that lowercases to the word providers. -/
def findProvidersIdx : List Str → Option Nat
  | [] => none
  | p :: rest =>
    if lowerStr p = providersWord then some 0
    else (findProvidersIdx rest).map (fun n => n + 1)

/-- parser.py _parse_resource_scope; none models the ValueError branches,
which the caller converts to InvalidScopeError. -/
def parse_resource_scope (after_rg : Str) : Option ScopeInfo :=
  let parts := splitSlash after_rg
  if parts.length < 4 then none
  else
    match findProvidersIdx parts with
    | none => none
    | some providers_index =>
      if parts.length ≤ providers_index + 2 then none
      else
        if providers_index + 3 < parts.length then
          some (.resource (parts.getD 0 []) (parts.getD (providers_index + 1) [])
            (parts.getD (providers_index + 2) [])
            (joinSlash (parts.drop (providers_index + 3))))
        else none

/-- parser.py _parse_resource_group_or_resource_scope: the remainder after
the slash-delimited resourcegroups keyword is taken from the original
string at the index found in the lowered string; the providers membership
test is performed on that original-case remainder. -/
def parse_resource_group_or_resource_scope (lock_scope scope_lower : Str) : Option ScopeInfo :=
  match findSub rgPat scope_lower with
  | none => none
  | some rg_index =>
    let after_rg := lock_scope.drop (rg_index + rgPat.length)
    if containsSub provPat after_rg then parse_resource_scope after_rg
    else some (.resourceGroup (rstripSlash after_rg))

/-- parser.py parse_lock_scope; none models InvalidScopeError, into which
the outer handler converts every failure of the helpers. -/
def parse_lock_scope (lock_scope : Str) : Option ScopeInfo :=
  let scope_lower := lowerStr lock_scope
  if containsSub rgPat scope_lower then
    parse_resource_group_or_resource_scope lock_scope scope_lower
  else parse_subscription_scope lock_scope

/-- The failure taxonomy seen by the source through azure.core exceptions
and its own InvalidScopeError.  ResourceNotFoundError is a subclass of
HttpResponseError in azure.core, which the catch predicates reflect. -/
inductive AzError : Type where
  | notFound : AzError
  | http (status : Nat) : AzError
  | serviceRequest : AzError
  | invalidScope : AzError
  | otherErr : AzError
  deriving DecidableEq

/-- The class caught by retry.py: ServiceRequestError together with
HttpResponseError and hence its subclass ResourceNotFoundError. -/
def retryCatches : AzError → Bool
  | .serviceRequest => true
  | .notFound => true
  | .http _ => true
  | _ => false

/-- retry.py retry_with_backoff, its loop over range(max_retries + 1).
The operation is indexed by the attempt number so that a stateful remote
service can answer each attempt differently; its trace of external calls
is accumulated.  The result records the value or propagated failure, the
number of invocations of the operation, the sleeps performed (in seconds,
base_delay times 2 to the attempt) and the accumulated trace.  The value
on the exhausted-range branch models the unreachable RuntimeError. -/
def retryLoop (op : Nat → Except AzError α × List τ) (maxRetries : Nat) (baseDelay : ℚ) :
    List Nat → Except AzError α × Nat × List ℚ × List τ
  | [] => (.error .otherErr, 0, [], [])
  | attempt :: rest =>
    match op attempt with
    | (.ok v, tr) => (.ok v, 1, [], tr)
    | (.error e, tr) =>
      if retryCatches e then
        if attempt = maxRetries then (.error e, 1, [], tr)
        else
          match retryLoop op maxRetries baseDelay rest with
          | (r2, c, sl, tr2) => (r2, c + 1, baseDelay * 2 ^ attempt :: sl, tr ++ tr2)
      else (.error e, 1, [], tr)

/-- retry.py retry_with_backoff with the attempt range spelt out. -/
def retry_with_backoff (op : Nat → Except AzError α × List τ) (maxRetries : Nat) (baseDelay : ℚ) :
    Except AzError α × Nat × List ℚ × List τ :=
  retryLoop op maxRetries baseDelay (List.range (maxRetries + 1))

/-- A management lock as observed from the gateway (id, name, level). -/
structure Lock : Type where
  id : Str
  name : Str
  level : Str
  deriving DecidableEq

/-- One invocation of a gateway delete operation, the three calls of
operations.py _execute_delete_operation with their arguments. -/
inductive DeleteCall : Type where
  | atSubscription (lockName : Str) : DeleteCall
  | atResourceGroup (resourceGroupName lockName : Str) : DeleteCall
  | atResource (resourceGroupName provider resourceType resourceName lockName : Str) : DeleteCall
  deriving DecidableEq

/-- operations.py remove_lock line computing
lock.id.split with the locks marker, taking piece zero: everything before
the first occurrence of the marker, the whole id when absent. -/
def scopeOfId (id : Str) : Str :=
  match findSub locksMarker id with
  | some i => id.take i
  | none => id

/-- operations.py _execute_delete_operation: parse the scope and dispatch
exactly one gateway delete call; a parse failure raises InvalidScopeError
(modelled as the invalidScope error) before any gateway call. -/
def execute_delete_operation (gw : DeleteCall → Except AzError Unit)
    (lock_name lock_scope : Str) : Except AzError Unit × List DeleteCall :=
  match parse_lock_scope lock_scope with
  | none => (.error .invalidScope, [])
  | some si =>
    let call : DeleteCall :=
      match si with
      | .resourceGroup rg => .atResourceGroup rg lock_name
      | .resource rg p t n => .atResource rg p t n lock_name
      | .subscription => .atSubscription lock_name
    (gw call, [call])

/-- The per-attempt operation wrapped by the retrier in remove_lock. -/
def delete_attempt (gw : Nat → DeleteCall → Except AzError Unit)
    (lock_name lock_scope : Str) (n : Nat) : Except AzError Unit × List DeleteCall :=
  execute_delete_operation (gw n) lock_name lock_scope

/-- operations.py remove_lock.  In dry-run mode it returns success with
no sleep and no gateway call.  Otherwise the retried deletion's outcome
is converted to a boolean by the except ladder: ResourceNotFoundError
gives success, HttpResponseError (403 logged distinctly) gives failure,
any other exception gives failure; nothing escapes. -/
def remove_lock (dry_run : Bool) (gw : Nat → DeleteCall → Except AzError Unit)
    (lock : Lock) : Bool × List ℚ × List DeleteCall :=
  let lock_scope := scopeOfId lock.id
  if dry_run then (true, [], [])
  else
    let res := retry_with_backoff (delete_attempt gw lock.name lock_scope) 3 1
    match res.1 with
    | .ok _ => (true, res.2.2.1, res.2.2.2)
    | .error .notFound => (true, res.2.2.1, res.2.2.2)
    | .error (.http _) => (false, res.2.2.1, res.2.2.2)
    | .error _ => (false, res.2.2.1, res.2.2.2)

/-- operations.py list_locks: the retried enumeration, with
ResourceNotFoundError converted to an empty list and every other failure
re-raised. -/
def list_locks (enum : Nat → Except AzError (List Lock)) : Except AzError (List Lock) :=
  match (retry_with_backoff (fun n => (enum n, ([] : List Unit))) 3 1).1 with
  | .ok locks => .ok locks
  | .error .notFound => .ok []
  | .error e => .error e

/-- The summary dictionary returned by operations.py remove_all_locks. -/
structure Outcome : Type where
  total : Nat
  success : Nat
  failed : Nat
  deriving DecidableEq

/-- The sequential loop of remove_all_locks: each listed lock is handed
to remove_lock once, in order, and the boolean is tallied.  The third
component records the locks processed, in processing order. -/
def removeAllLoop (dry_run : Bool) (gw : Lock → Nat → DeleteCall → Except AzError Unit) :
    List Lock → Nat × Nat × List Lock
  | [] => (0, 0, [])
  | lock :: rest =>
    let r := (remove_lock dry_run (gw lock) lock).1
    let m := removeAllLoop dry_run gw rest
    if r then (m.1 + 1, m.2.1, lock :: m.2.2) else (m.1, m.2.1 + 1, lock :: m.2.2)

/-- operations.py remove_all_locks: list, return the zero summary when
nothing was found, otherwise tally the per-lock booleans; a listing
failure propagates and no partial summary is produced. -/
def remove_all_locks (dry_run : Bool) (enum : Nat → Except AzError (List Lock))
    (gw : Lock → Nat → DeleteCall → Except AzError Unit) :
    Except AzError (Outcome × List Lock) :=
  match list_locks enum with
  | .error e => .error e
  | .ok locks =>
    if locks.isEmpty then .ok ({ total := 0, success := 0, failed := 0 }, [])
    else
      let m := removeAllLoop dry_run gw locks
      .ok ({ total := locks.length, success := m.1, failed := m.2.1 }, m.2.2)

/-- The first component of a non-dry-run remove_lock is exactly the
except-ladder verdict on the retried deletion outcome. -/
theorem remove_lock_fst (gw : Nat → DeleteCall → Except AzError Unit) (lock : Lock) :
    (remove_lock false gw lock).1 =
      (match (retry_with_backoff (delete_attempt gw lock.name (scopeOfId lock.id)) 3 1).1 with
        | .ok _ => true
        | .error .notFound => true
        | .error _ => false) := by
  simp only [remove_lock, Bool.false_eq_true, if_false]
  cases h : (retry_with_backoff (delete_attempt gw lock.name (scopeOfId lock.id)) 3 1).1 with
  | ok v => rfl
  | error e => cases e <;> rfl

/-- C4: with dryRun = true, remove_lock reports success, performs no sleep
and issues no gateway delete call (empty call trace), for every gateway
behaviour and every lock, whatever the shape of its scope. -/
theorem c4_dry_run_purity (gw : Nat → DeleteCall → Except AzError Unit) (lock : Lock) :
    remove_lock true gw lock = (true, [], []) := rfl

/-- C5: outside dry-run mode the per-lock boolean is fixed by the failure
outcome of the dispatched, retried deletion: a not-found failure counts
as success (idempotent deletion), a 403 counts as failure, and any other
failure, the unexpected invalid-scope one included, counts as failure;
remove_lock is a total function into Bool, so no gateway-originated
failure escapes it. -/
theorem c5_failure_policy (gw : Nat → DeleteCall → Except AzError Unit) (lock : Lock) :
    ((retry_with_backoff (delete_attempt gw lock.name (scopeOfId lock.id)) 3 1).1 =
        .error .notFound → (remove_lock false gw lock).1 = true)
    ∧ ((retry_with_backoff (delete_attempt gw lock.name (scopeOfId lock.id)) 3 1).1 =
        .error (.http 403) → (remove_lock false gw lock).1 = false)
    ∧ (∀ e : AzError, e ≠ .notFound →
        (retry_with_backoff (delete_attempt gw lock.name (scopeOfId lock.id)) 3 1).1 =
          .error e → (remove_lock false gw lock).1 = false) := by
  refine ⟨fun h => ?_, fun h => ?_, fun e hne h => ?_⟩
  · rw [remove_lock_fst, h]
  · rw [remove_lock_fst, h]
  · rw [remove_lock_fst, h]
    cases e with
    | notFound => exact absurd rfl hne
    | http st => rfl
    | serviceRequest => rfl
    | invalidScope => rfl
    | otherErr => rfl

/-- A subscription-scoped lock used to exercise the operations model. -/
def lockSub : Lock :=
  { id := "/subscriptions/S/providers/Microsoft.Authorization/locks/lock1".toList,
    name := "lock1".toList, level := "CanNotDelete".toList }

/-- A gateway whose delete always reports the lock as already gone. -/
def gwNotFound : Nat → DeleteCall → Except AzError Unit := fun _ _ => .error .notFound

/-- A gateway whose delete always reports insufficient permissions. -/
def gwForbidden : Nat → DeleteCall → Except AzError Unit := fun _ _ => .error (.http 403)

/-- A gateway whose delete always fails with an unexpected error. -/
def gwBroken : Nat → DeleteCall → Except AzError Unit := fun _ _ => .error .otherErr

theorem c5_failure_policy_witness :
    (remove_lock false gwNotFound lockSub).1 = true
    ∧ (remove_lock false gwForbidden lockSub).1 = false
    ∧ (remove_lock false gwBroken lockSub).1 = false :=
  ⟨(c5_failure_policy gwNotFound lockSub).1 rfl,
   (c5_failure_policy gwForbidden lockSub).2.1 rfl,
   (c5_failure_policy gwBroken lockSub).2.2 .otherErr (by decide) rfl⟩

/-- C9: list_locks converts a not-found enumeration failure into the
empty collection, and re-raises every other failure of the retried
enumeration. -/
theorem c9_list_locks_policy (enum : Nat → Except AzError (List Lock)) :
    ((retry_with_backoff (fun n => (enum n, ([] : List Unit))) 3 1).1 = .error .notFound →
      list_locks enum = .ok [])
    ∧ (∀ e : AzError, e ≠ .notFound →
      (retry_with_backoff (fun n => (enum n, ([] : List Unit))) 3 1).1 = .error e →
      list_locks enum = .error e) := by
  refine ⟨fun h => ?_, fun e hne h => ?_⟩
  · unfold list_locks
    rw [h]
  · unfold list_locks
    rw [h]
    cases e with
    | notFound => exact absurd rfl hne
    | http st => rfl
    | serviceRequest => rfl
    | invalidScope => rfl
    | otherErr => rfl

/-- An enumeration that always reports the subscription as not found. -/
def enumNotFound : Nat → Except AzError (List Lock) := fun _ => .error .notFound

/-- An enumeration that always fails with a server error. -/
def enumServerError : Nat → Except AzError (List Lock) := fun _ => .error (.http 500)

theorem c9_list_locks_policy_witness :
    list_locks enumNotFound = .ok [] ∧ list_locks enumServerError = .error (.http 500) :=
  ⟨(c9_list_locks_policy enumNotFound).1 rfl,
   (c9_list_locks_policy enumServerError).2 (.http 500) (by decide) rfl⟩

/-- C3: the retrier at maxRetries 3 and baseDelay 1, run against an
operation failing with a retriable transient error on every call, invokes
the operation exactly 4 times, sleeps 1, 2 and 4 seconds before the three
retries, and propagates the final attempt's failure. -/
theorem c3_backoff_timing (op : Nat → Except AzError Unit) (e : Nat → AzError)
    (hop : ∀ n, op n = .error (e n)) (hcat : ∀ n, retryCatches (e n) = true) :
    retry_with_backoff (fun n => (op n, ([] : List Unit))) 3 1 =
      (.error (e 3), 4, [1, 2, 4], []) := by
  have hr : List.range 4 = [0, 1, 2, 3] := rfl
  simp only [retry_with_backoff, hr, retryLoop, hop, hcat, if_true]
  norm_num

theorem c3_backoff_timing_witness :
    retry_with_backoff (fun _ => ((.error .serviceRequest : Except AzError Unit), ([] : List Unit))) 3 1 =
      (.error .serviceRequest, 4, [1, 2, 4], []) :=
  c3_backoff_timing (fun _ => .error .serviceRequest) (fun _ => .serviceRequest)
    (fun _ => rfl) (fun _ => rfl)

/-- The tally of the sequential removal loop: successes and failures sum
to the number of locks handed to it, and the processing trace is exactly
the input list, in order. -/
theorem removeAllLoop_spec (dry_run : Bool)
    (gw : Lock → Nat → DeleteCall → Except AzError Unit) (L : List Lock) :
    (removeAllLoop dry_run gw L).1 + (removeAllLoop dry_run gw L).2.1 = L.length
    ∧ (removeAllLoop dry_run gw L).2.2 = L := by
  induction L with
  | nil => exact ⟨rfl, rfl⟩
  | cons lock rest ih =>
    obtain ⟨ih1, ih2⟩ := ih
    rcases hm : removeAllLoop dry_run gw rest with ⟨s, f, proc⟩
    rw [hm] at ih1 ih2
    dsimp only at ih1 ih2
    simp only [removeAllLoop, hm, List.length_cons]
    cases hr : (remove_lock dry_run (gw lock) lock).1
    · simp only [Bool.false_eq_true, if_false]
      exact ⟨by omega, by rw [ih2]⟩
    · simp only [if_true]
      exact ⟨by omega, by rw [ih2]⟩

/-- C2: whenever listing succeeds with N locks, remove_all_locks returns
a summary whose total is N and whose success and failure counts add up
to N, and its processing trace is exactly the listed sequence, each lock
once, in listing order; when the listing is empty, the zero summary is
returned with an empty processing trace (no removal attempted). -/
theorem c2_aggregate_conservation (dry_run : Bool)
    (enum : Nat → Except AzError (List Lock))
    (gw : Lock → Nat → DeleteCall → Except AzError Unit) (locks : List Lock)
    (h : list_locks enum = .ok locks) :
    (∃ out proc, remove_all_locks dry_run enum gw = .ok (out, proc)
      ∧ out.total = locks.length ∧ out.success + out.failed = locks.length ∧ proc = locks)
    ∧ (locks = [] →
      remove_all_locks dry_run enum gw = .ok ({ total := 0, success := 0, failed := 0 }, [])) := by
  have hspec := removeAllLoop_spec dry_run gw locks
  have hrw : remove_all_locks dry_run enum gw =
      (if locks.isEmpty then .ok (Outcome.mk 0 0 0, [])
       else
        .ok (Outcome.mk locks.length (removeAllLoop dry_run gw locks).1
          (removeAllLoop dry_run gw locks).2.1, (removeAllLoop dry_run gw locks).2.2)) := by
    unfold remove_all_locks
    rw [h]
  have hzero : locks = [] →
      remove_all_locks dry_run enum gw = .ok ({ total := 0, success := 0, failed := 0 }, []) := by
    intro hnil
    subst hnil
    rw [hrw]
    rfl
  refine ⟨?_, hzero⟩
  cases hl : locks.isEmpty
  · refine ⟨Outcome.mk locks.length (removeAllLoop dry_run gw locks).1
      (removeAllLoop dry_run gw locks).2.1, (removeAllLoop dry_run gw locks).2.2,
      ?_, rfl, hspec.1, hspec.2⟩
    rw [hrw, hl]
    rfl
  · have hnil : locks = [] := List.isEmpty_iff.mp hl
    subst hnil
    exact ⟨Outcome.mk 0 0 0, [], hzero rfl, rfl, rfl, rfl⟩

/-- A gateway enumeration producing one subscription-scoped lock. -/
def enumOne : Nat → Except AzError (List Lock) := fun _ => .ok [lockSub]

theorem c2_aggregate_conservation_witness :
    (∃ out proc, remove_all_locks false enumOne (fun _ => gwNotFound) = .ok (out, proc)
      ∧ out.total = 1 ∧ out.success + out.failed = 1 ∧ proc = [lockSub])
    ∧ ([lockSub] = ([] : List Lock) →
      remove_all_locks false enumOne (fun _ => gwNotFound) =
        .ok ({ total := 0, success := 0, failed := 0 }, [])) :=
  c2_aggregate_conservation false enumOne (fun _ => gwNotFound) [lockSub] (by rfl)

/-- A scope without a case-insensitive resourcegroups segment parses to
the subscription variant. -/
theorem parse_sub_of (s : Str) (h : containsSub rgPat (lowerStr s) = false) :
    parse_lock_scope s = some .subscription := by
  simp [parse_lock_scope, parse_subscription_scope, h]

/-- A scope whose remainder after the resourcegroups keyword holds no
literal providers segment parses to the resource-group variant named by
that remainder, trailing slashes stripped. -/
theorem parse_rg_of (s : Str) (i : Nat) (h1 : findSub rgPat (lowerStr s) = some i)
    (h2 : containsSub provPat (s.drop (i + rgPat.length)) = false) :
    parse_lock_scope s = some (.resourceGroup (rstripSlash (s.drop (i + rgPat.length)))) := by
  have hc : containsSub rgPat (lowerStr s) = true := by
    simp [containsSub, h1]
  simp [parse_lock_scope, parse_resource_group_or_resource_scope, hc, h1, h2]

/-- A scope whose remainder after the resourcegroups keyword holds a
literal providers segment and a well-formed segment structure parses to
the resource variant with the fields computed from the split remainder. -/
theorem parse_res_of (s : Str) (i j : Nat) (h1 : findSub rgPat (lowerStr s) = some i)
    (h2 : containsSub provPat (s.drop (i + rgPat.length)) = true)
    (h4 : 4 ≤ (splitSlash (s.drop (i + rgPat.length))).length)
    (hj : findProvidersIdx (splitSlash (s.drop (i + rgPat.length))) = some j)
    (hlen : j + 3 < (splitSlash (s.drop (i + rgPat.length))).length) :
    parse_lock_scope s = some (.resource
      ((splitSlash (s.drop (i + rgPat.length))).getD 0 [])
      ((splitSlash (s.drop (i + rgPat.length))).getD (j + 1) [])
      ((splitSlash (s.drop (i + rgPat.length))).getD (j + 2) [])
      (joinSlash ((splitSlash (s.drop (i + rgPat.length))).drop (j + 3)))) := by
  have hc : containsSub rgPat (lowerStr s) = true := by
    simp [containsSub, h1]
  have hn4 : ¬ (splitSlash (s.drop (i + rgPat.length))).length < 4 := by omega
  have hn2 : ¬ (splitSlash (s.drop (i + rgPat.length))).length ≤ j + 2 := by omega
  simp [parse_lock_scope, parse_resource_group_or_resource_scope, parse_resource_scope,
    hc, h1, h2, hn4, hj, hn2, hlen]

/-- The end-to-end resource-scope example from the specification. -/
def scopeExample : Str :=
  "/subscriptions/S/resourcegroups/rg-test/providers/Microsoft.Storage/storageAccounts/mystorageaccount".toList

/-- C1: scope strings of the three recognized shapes are classified into
the matching variant with the expected fields.  No resourcegroups segment
(case-insensitive) gives the Subscription variant; a resourcegroups
segment whose remainder holds no providers segment gives the
ResourceGroup variant named by that remainder with trailing slashes
stripped; a remainder with a providers segment and well-formed segment
structure gives the Resource variant whose fields are the remainder's
first segment, the segment after the matched providers segment, the next
segment, and the remaining segments rejoined with slashes.  The spec's
end-to-end resource example is included verbatim. -/
theorem c1_shape_classification :
    (∀ s : Str, containsSub rgPat (lowerStr s) = false →
      parse_lock_scope s = some .subscription)
    ∧ (∀ (s : Str) (i : Nat), findSub rgPat (lowerStr s) = some i →
        containsSub provPat (s.drop (i + rgPat.length)) = false →
        parse_lock_scope s = some (.resourceGroup (rstripSlash (s.drop (i + rgPat.length)))))
    ∧ (∀ (s : Str) (i j : Nat), findSub rgPat (lowerStr s) = some i →
        containsSub provPat (s.drop (i + rgPat.length)) = true →
        4 ≤ (splitSlash (s.drop (i + rgPat.length))).length →
        findProvidersIdx (splitSlash (s.drop (i + rgPat.length))) = some j →
        j + 3 < (splitSlash (s.drop (i + rgPat.length))).length →
        parse_lock_scope s = some (.resource
          ((splitSlash (s.drop (i + rgPat.length))).getD 0 [])
          ((splitSlash (s.drop (i + rgPat.length))).getD (j + 1) [])
          ((splitSlash (s.drop (i + rgPat.length))).getD (j + 2) [])
          (joinSlash ((splitSlash (s.drop (i + rgPat.length))).drop (j + 3)))))
    ∧ parse_lock_scope scopeExample = some (.resource "rg-test".toList
        "Microsoft.Storage".toList "storageAccounts".toList "mystorageaccount".toList) :=
  ⟨parse_sub_of, parse_rg_of, parse_res_of, by decide⟩

theorem c1_shape_classification_witness :
    parse_lock_scope scopeExample = some (.resource "rg-test".toList
      "Microsoft.Storage".toList "storageAccounts".toList "mystorageaccount".toList) :=
  (c1_shape_classification).2.2.1 scopeExample 16 1 (by decide) (by decide) (by decide)
    (by decide) (by decide)

/-- A scope whose remainder spells Providers with a capital letter, so
that it contains a providers segment case-insensitively but not the
literal lowercase one. -/
def scopeMixedCase : Str := "/subscriptions/S/resourcegroups/rg/Providers/NS/T/N".toList

/-- C7 counterexample: the claim says this scope, whose providers segment
is spelt Providers, is classified as the Resource variant; the code
classifies it as the ResourceGroup variant whose name swallows the whole
remainder, because the membership test for the providers keyword is run
case-sensitively on the original-case remainder. -/
theorem c7_counterexample :
    parse_lock_scope scopeMixedCase =
      some (.resourceGroup "rg/Providers/NS/T/N".toList) := by decide

/-- C7 amended: keyword matching is case-insensitive for resourcegroups,
but the membership test that separates the ResourceGroup case from the
Resource case looks for the literal lowercase providers keyword in the
original-case remainder: whenever that literal is absent the scope is
classified as ResourceGroup even if the lowered remainder does contain
the providers keyword (a Providers segment in any other letter case). -/
theorem c7_providers_case_sensitivity (s : Str) (i : Nat)
    (h1 : findSub rgPat (lowerStr s) = some i)
    (h2 : containsSub provPat (s.drop (i + rgPat.length)) = false)
    (_h3 : containsSub provPat (lowerStr (s.drop (i + rgPat.length))) = true) :
    parse_lock_scope s = some (.resourceGroup (rstripSlash (s.drop (i + rgPat.length)))) :=
  parse_rg_of s i h1 h2

theorem c7_providers_case_sensitivity_witness :
    parse_lock_scope scopeMixedCase =
      some (.resourceGroup (rstripSlash (scopeMixedCase.drop (16 + rgPat.length)))) :=
  c7_providers_case_sensitivity scopeMixedCase 16 (by decide) (by decide) (by decide)

/-- C8 counterexample: the claim says parse fails with InvalidScope on
any string conforming to none of the three shapes, such as an arbitrary
word; the code classifies every string without a resourcegroups segment
as a Subscription scope and never fails on it. -/
theorem c8_counterexample : parse_lock_scope "garbage".toList = some .subscription := by
  decide

/-- A remainder with the literal providers keyword but fewer than 4
slash-separated segments makes the parse fail. -/
theorem parse_none_of_short (s : Str) (i : Nat) (h1 : findSub rgPat (lowerStr s) = some i)
    (h2 : containsSub provPat (s.drop (i + rgPat.length)) = true)
    (h4 : (splitSlash (s.drop (i + rgPat.length))).length < 4) :
    parse_lock_scope s = none := by
  have hc : containsSub rgPat (lowerStr s) = true := by
    simp [containsSub, h1]
  simp [parse_lock_scope, parse_resource_group_or_resource_scope, parse_resource_scope,
    hc, h1, h2, h4]

/-- A remainder whose matched providers segment is not followed by at
least three further segments makes the parse fail. -/
theorem parse_none_of_tail (s : Str) (i j : Nat) (h1 : findSub rgPat (lowerStr s) = some i)
    (h2 : containsSub provPat (s.drop (i + rgPat.length)) = true)
    (hj : findProvidersIdx (splitSlash (s.drop (i + rgPat.length))) = some j)
    (hlen : (splitSlash (s.drop (i + rgPat.length))).length ≤ j + 3) :
    parse_lock_scope s = none := by
  have hc : containsSub rgPat (lowerStr s) = true := by
    simp [containsSub, h1]
  by_cases h4 : (splitSlash (s.drop (i + rgPat.length))).length < 4
  · simp [parse_lock_scope, parse_resource_group_or_resource_scope, parse_resource_scope,
      hc, h1, h2, h4]
  · by_cases h5 : (splitSlash (s.drop (i + rgPat.length))).length ≤ j + 2
    · simp [parse_lock_scope, parse_resource_group_or_resource_scope, parse_resource_scope,
        hc, h1, h2, h4, hj, h5]
    · have h6 : ¬ j + 3 < (splitSlash (s.drop (i + rgPat.length))).length := by omega
      simp [parse_lock_scope, parse_resource_group_or_resource_scope, parse_resource_scope,
        hc, h1, h2, h4, hj, h5, h6]

/-- splitSlash never produces the empty list of segments. -/
theorem splitSlash_ne_nil (z : Str) : splitSlash z ≠ [] := by
  cases z with
  | nil => simp [splitSlash]
  | cons c t =>
    simp only [splitSlash]
    split
    · simp
    · split <;> simp

/-- A slash-join is empty only for no segments or one empty segment. -/
theorem joinSlash_eq_nil : ∀ L : List Str, joinSlash L = [] → L = [] ∨ L = [[]]
  | [], _ => Or.inl rfl
  | [x], h => Or.inr (by simpa [joinSlash] using h)
  | _ :: _ :: _, h => by simp [joinSlash] at h

/-- The one-step unfolding of splitSlash on a non-empty string. -/
theorem splitSlash_cons (c : Char) (t : Str) :
    splitSlash (c :: t) =
      if c = '/' then [] :: splitSlash t
      else
        match splitSlash t with
        | [] => [[c]]
        | h :: r => (c :: h) :: r := rfl

/-- When the input is non-empty and does not end with a slash, the last
segment of its slash-split is non-empty. -/
theorem splitSlash_getLast_ne_nil (z : Str) (hz : z ≠ []) (hlast : z.getLast? ≠ some '/') :
    (splitSlash z).getLast? ≠ some [] := by
  induction z with
  | nil => exact absurd rfl hz
  | cons c t ih =>
    cases t with
    | nil =>
      have hc : ¬ c = '/' := fun hc => hlast (by simp [hc])
      simp [splitSlash, hc]
    | cons d u =>
      have hlast' : (d :: u).getLast? ≠ some '/' := by
        simpa [List.getLast?_cons_cons] using hlast
      have ihne := ih (by simp) hlast'
      rw [splitSlash_cons]
      by_cases hc : c = '/'
      · rw [if_pos hc]
        cases hsp : splitSlash (d :: u) with
        | nil => exact absurd hsp (splitSlash_ne_nil _)
        | cons h' r' =>
          rw [List.getLast?_cons_cons, ← hsp]
          exact ihne
      · rw [if_neg hc]
        cases hsp : splitSlash (d :: u) with
        | nil => exact absurd hsp (splitSlash_ne_nil _)
        | cons h' r' =>
          dsimp only
          cases r' with
          | nil => simp
          | cons e r2 =>
            rw [List.getLast?_cons_cons]
            rw [hsp, List.getLast?_cons_cons] at ihne
            exact ihne

/-- Inversion of the parser on the resource variant: the successful run
passed every guard of _parse_resource_scope and the fields are the ones
computed from the split remainder. -/
theorem parse_resource_inversion (s rg p t n : Str)
    (h : parse_lock_scope s = some (.resource rg p t n)) :
    ∃ i j : Nat, findSub rgPat (lowerStr s) = some i
      ∧ containsSub provPat (s.drop (i + rgPat.length)) = true
      ∧ 4 ≤ (splitSlash (s.drop (i + rgPat.length))).length
      ∧ findProvidersIdx (splitSlash (s.drop (i + rgPat.length))) = some j
      ∧ j + 3 < (splitSlash (s.drop (i + rgPat.length))).length
      ∧ rg = (splitSlash (s.drop (i + rgPat.length))).getD 0 []
      ∧ p = (splitSlash (s.drop (i + rgPat.length))).getD (j + 1) []
      ∧ t = (splitSlash (s.drop (i + rgPat.length))).getD (j + 2) []
      ∧ n = joinSlash ((splitSlash (s.drop (i + rgPat.length))).drop (j + 3)) := by
  unfold parse_lock_scope at h
  by_cases hc : containsSub rgPat (lowerStr s) = true
  · rw [if_pos hc] at h
    unfold parse_resource_group_or_resource_scope at h
    cases hf : findSub rgPat (lowerStr s) with
    | none => rw [hf] at h; simp at h
    | some i =>
      rw [hf] at h
      dsimp only at h
      by_cases hp : containsSub provPat (s.drop (i + rgPat.length)) = true
      · rw [if_pos hp] at h
        unfold parse_resource_scope at h
        dsimp only at h
        by_cases h4 : (splitSlash (s.drop (i + rgPat.length))).length < 4
        · rw [if_pos h4] at h; simp at h
        · rw [if_neg h4] at h
          cases hj : findProvidersIdx (splitSlash (s.drop (i + rgPat.length))) with
          | none => rw [hj] at h; simp at h
          | some j =>
            rw [hj] at h
            dsimp only at h
            by_cases h5 : (splitSlash (s.drop (i + rgPat.length))).length ≤ j + 2
            · rw [if_pos h5] at h; simp at h
            · rw [if_neg h5] at h
              by_cases h6 : j + 3 < (splitSlash (s.drop (i + rgPat.length))).length
              · rw [if_pos h6] at h
                simp only [Option.some.injEq, ScopeInfo.resource.injEq] at h
                exact ⟨i, j, rfl, hp, by omega, hj, h6,
                  h.1.symm, h.2.1.symm, h.2.2.1.symm, h.2.2.2.symm⟩
              · rw [if_neg h6] at h; simp at h
      · rw [if_neg hp] at h
        simp at h
  · rw [if_neg hc] at h
    simp [parse_subscription_scope] at h

/-- C6 counterexample: a scope with a trailing slash right after the
resource type parses to the Resource variant with an EMPTY resource
name, contradicting the claimed non-emptiness invariant. -/
theorem c6_counterexample :
    parse_lock_scope "/subscriptions/S/resourcegroups/rg/providers/ns/type/".toList =
      some (.resource "rg".toList "ns".toList "type".toList []) := by decide

/-- C6 amended: when parse returns the Resource variant, the resource
name can be empty, but only for scopes ending in a slash: for every
scope string not ending in a slash, the Resource variant's resourceName
is non-empty.  Exactly one variant is populated by construction of the
descriptor type. -/
theorem c6_resource_name_nonempty (s rg p t n : Str)
    (h : parse_lock_scope s = some (.resource rg p t n))
    (hlast : s.getLast? ≠ some '/') : n ≠ [] := by
  obtain ⟨i, j, hf, hp, h4, hj, h6, hrg, hpv, hty, hn⟩ := parse_resource_inversion s rg p t n h
  have hane : s.drop (i + rgPat.length) ≠ [] := by
    intro hnil
    rw [hnil] at h4
    simp [splitSlash] at h4
  have hdlen : ¬ s.length ≤ i + rgPat.length := fun hle =>
    hane (List.drop_eq_nil_iff.mpr hle)
  have halast : (s.drop (i + rgPat.length)).getLast? ≠ some '/' := by
    rw [List.getLast?_drop, if_neg hdlen]
    exact hlast
  have hlastseg := splitSlash_getLast_ne_nil (s.drop (i + rgPat.length)) hane halast
  intro hne
  rw [hne] at hn
  cases joinSlash_eq_nil _ hn.symm with
  | inl hd =>
    have := List.drop_eq_nil_iff.mp hd
    omega
  | inr hd =>
    apply hlastseg
    have hdne : ((splitSlash (s.drop (i + rgPat.length))).drop (j + 3)).getLast? = some [] := by
      rw [hd]; rfl
    rw [List.getLast?_drop] at hdne
    by_cases hge : (splitSlash (s.drop (i + rgPat.length))).length ≤ j + 3
    · rw [if_pos hge] at hdne; exact absurd hdne (by simp)
    · rw [if_neg hge] at hdne; exact hdne

theorem c6_resource_name_nonempty_witness :
    "mystorageaccount".toList ≠ ([] : Str) :=
  c6_resource_name_nonempty
    "/subscriptions/S2/resourcegroups/rg2/providers/Microsoft.Network/virtualNetworks/mystorageaccount".toList
    "rg2".toList "Microsoft.Network".toList "virtualNetworks".toList "mystorageaccount".toList
    (by decide) (by decide)

/-- A list is a leading piece of itself followed by anything. -/
theorem isPre_self_append (p t : Str) : isPre p (p ++ t) = true := by
  induction p with
  | nil => rfl
  | cons a q ih => simp [isPre, ih]

/-- Inverting the leading-piece test on a cons pattern. -/
theorem isPre_cons_inv (a : Char) (p z : Str) (h : isPre (a :: p) z = true) :
    ∃ z', z = a :: z' ∧ isPre p z' = true := by
  cases z with
  | nil => simp [isPre] at h
  | cons b z' =>
    simp only [isPre, Bool.and_eq_true, beq_iff_eq] at h
    exact ⟨z', by rw [h.1], h.2⟩

/-- A leading piece of a leading piece. -/
theorem isPre_of_append (p q z : Str) (h : isPre (p ++ q) z = true) : isPre p z = true := by
  induction p generalizing z with
  | nil => rfl
  | cons a p' ih =>
    obtain ⟨z', rfl, hz⟩ := isPre_cons_inv a (p' ++ q) z h
    simp [isPre, ih z' hz]

/-- The first-occurrence characterization of findSub: a match at i with no
match at any earlier index pins the result. -/
theorem findSub_eq_some_of (pat s : Str) (i : Nat) (hocc : isPre pat (s.drop i) = true)
    (hmin : ∀ k, k < i → isPre pat (s.drop k) = false) : findSub pat s = some i := by
  induction s generalizing i with
  | nil =>
    cases i with
    | zero => simp only [List.drop_nil] at hocc; simp [findSub, hocc]
    | succ j =>
      have := hmin 0 (Nat.succ_pos j)
      simp only [List.drop_nil] at hocc this
      rw [this] at hocc
      exact absurd hocc (by simp)
  | cons c t ih =>
    cases i with
    | zero =>
      simp only [List.drop_zero] at hocc
      simp [findSub, hocc]
    | succ j =>
      have h0 : isPre pat (c :: t) = false := by
        have := hmin 0 (Nat.succ_pos j)
        simpa using this
      have hocc' : isPre pat (t.drop j) = true := by
        simpa [List.drop_succ_cons] using hocc
      have hmin' : ∀ k, k < j → isPre pat (t.drop k) = false := by
        intro k hk
        have := hmin (k + 1) (by omega)
        simpa [List.drop_succ_cons] using this
      simp [findSub, h0, ih j hocc' hmin']

/-- Any match anywhere makes the membership test true. -/
theorem containsSub_of_isPre (pat s : Str) (i : Nat) (h : isPre pat (s.drop i) = true) :
    containsSub pat s = true := by
  induction s generalizing i with
  | nil =>
    rw [List.drop_nil] at h
    cases pat with
    | nil => rfl
    | cons a p => simp [isPre] at h
  | cons c t ih =>
    by_cases h0 : isPre pat (c :: t) = true
    · simp [containsSub, findSub, h0]
    · cases i with
      | zero => rw [List.drop_zero] at h; exact absurd h h0
      | succ j =>
        rw [List.drop_succ_cons] at h
        have := ih j h
        simp only [containsSub, findSub] at this ⊢
        rw [if_neg (by simpa using h0)]
        simpa using this

/-- A slash-free pattern matching at the front of x ++ slash :: y must fit
entirely inside x. -/
theorem isPre_noslash_split (p : Str) (hp : '/' ∉ p) :
    ∀ x y : Str, isPre p (x ++ '/' :: y) = true → p.length ≤ x.length ∧ isPre p x = true := by
  induction p with
  | nil => intro x y _; exact ⟨Nat.zero_le _, rfl⟩
  | cons a q ih =>
    intro x y h
    have ha : a ≠ '/' := fun he => hp (he ▸ List.mem_cons_self a q)
    have hq : '/' ∉ q := fun hm => hp (List.mem_cons_of_mem a hm)
    cases x with
    | nil =>
      obtain ⟨z', hz, _⟩ := isPre_cons_inv a q ('/' :: y) h
      have hsl : '/' = a := by
        have := congrArg List.head? hz
        simpa using this
      exact absurd hsl.symm ha
    | cons b x' =>
      obtain ⟨z', hz, hq2⟩ := isPre_cons_inv a q (b :: x' ++ '/' :: y) h
      have hab : b = a := by
        have := congrArg List.head? hz
        simpa using this
      have hz' : z' = x' ++ '/' :: y := by
        have := congrArg List.tail hz
        simpa using this.symm
      obtain ⟨hle, hpre⟩ := ih hq x' y (hz' ▸ hq2)
      subst hab
      refine ⟨by simpa using Nat.succ_le_succ hle, ?_⟩
      simp [isPre, hpre]

/-- The first occurrence of the pattern slash P slash in a string of the
shape A-prime, slash, u, slash, P, slash, r is exactly at the marked
position, provided the slash-free word P occurs neither in A-prime nor
in u.  This is the combinatorial heart of the build-then-parse round
trip: the slash before P cannot be matched by any character of P, so an
occurrence cannot straddle the separators. -/
theorem findSub_sandwich (P A' u r : Str) (hP : '/' ∉ P)
    (hA : containsSub P A' = false) (hu : containsSub P u = false) :
    findSub ('/' :: (P ++ ['/'])) (A' ++ '/' :: (u ++ '/' :: (P ++ '/' :: r))) =
      some (A'.length + 1 + u.length) := by
  set pat : Str := '/' :: (P ++ ['/']) with hpat
  set S : Str := A' ++ '/' :: (u ++ '/' :: (P ++ '/' :: r)) with hS
  have hlen1 : (A' ++ '/' :: u).length = A'.length + 1 + u.length := by
    simp [List.length_append]
    omega
  have hSalt : S = (A' ++ '/' :: u) ++ '/' :: (P ++ '/' :: r) := by
    simp [hS, List.append_assoc]
  have hocc : isPre pat (S.drop (A'.length + 1 + u.length)) = true := by
    rw [hSalt, List.drop_left' hlen1]
    have : '/' :: (P ++ '/' :: r) = pat ++ r := by
      simp [hpat, List.append_assoc]
    rw [this]
    exact isPre_self_append pat r
  have hmin : ∀ k, k < A'.length + 1 + u.length → isPre pat (S.drop k) = false := by
    intro k hk
    by_contra hcon
    have htrue : isPre pat (S.drop k) = true := by
      cases h : isPre pat (S.drop k)
      · exact absurd h hcon
      · rfl
    have hP1 : isPre (P ++ ['/']) (S.drop (k + 1)) = true := by
      obtain ⟨z', hz, hq⟩ := isPre_cons_inv '/' (P ++ ['/']) (S.drop k) htrue
      have : z' = S.drop (k + 1) := by
        rw [← List.tail_drop, hz]
        rfl
      rwa [← this]
    have hPocc : isPre P (S.drop (k + 1)) = true := isPre_of_append P ['/'] _ hP1
    by_cases hq : k + 1 ≤ A'.length
    · have hdrop : S.drop (k + 1) = A'.drop (k + 1) ++ '/' :: (u ++ '/' :: (P ++ '/' :: r)) := by
        rw [hS, List.drop_append_of_le_length hq]
      rw [hdrop] at hPocc
      obtain ⟨_, hpre⟩ := isPre_noslash_split P hP (A'.drop (k + 1)) _ hPocc
      have : containsSub P A' = true := by
        have h2 : isPre P (A'.drop (k + 1)) = true := hpre
        exact containsSub_of_isPre P A' (k + 1) h2
      rw [this] at hA
      exact absurd hA (by simp)
    · have hq' : A'.length + 1 ≤ k + 1 := by omega
      have hkform : k + 1 = (A' ++ ['/']).length + (k - A'.length) := by
        simp [List.length_append]
        omega
      have hdrop : S.drop (k + 1) = (u ++ '/' :: (P ++ '/' :: r)).drop (k - A'.length) := by
        have hS2 : S = (A' ++ ['/']) ++ (u ++ '/' :: (P ++ '/' :: r)) := by
          simp [hS, List.append_assoc]
        rw [hS2, hkform, List.drop_append]
      have hqu : k - A'.length ≤ u.length := by omega
      have hdrop2 : (u ++ '/' :: (P ++ '/' :: r)).drop (k - A'.length) =
          u.drop (k - A'.length) ++ '/' :: (P ++ '/' :: r) :=
        List.drop_append_of_le_length hqu
      rw [hdrop, hdrop2] at hPocc
      obtain ⟨_, hpre⟩ := isPre_noslash_split P hP (u.drop (k - A'.length)) _ hPocc
      have : containsSub P u = true := containsSub_of_isPre P u (k - A'.length) hpre
      rw [this] at hu
      exact absurd hu (by simp)
  exact findSub_eq_some_of pat S (A'.length + 1 + u.length) hocc hmin

/-- Splitting a string that starts with a slash-free piece followed by a
slash peels off that piece as the first segment. -/
theorem splitSlash_noslash_append (x y : Str) (hx : '/' ∉ x) :
    splitSlash (x ++ '/' :: y) = x :: splitSlash y := by
  induction x with
  | nil => simp [splitSlash]
  | cons c x' ih =>
    have hc : ¬ c = '/' := fun h => hx (h ▸ List.mem_cons_self c x')
    have hx' : '/' ∉ x' := fun h => hx (List.mem_cons_of_mem c h)
    rw [List.cons_append, splitSlash_cons, if_neg hc, ih hx']

/-- Rejoining the slash-split of a string restores the string. -/
theorem joinSlash_splitSlash (z : Str) : joinSlash (splitSlash z) = z := by
  induction z with
  | nil => rfl
  | cons c t ih =>
    rw [splitSlash_cons]
    by_cases hc : c = '/'
    · rw [if_pos hc]
      cases hsp : splitSlash t with
      | nil => exact absurd hsp (splitSlash_ne_nil t)
      | cons h r =>
        have ih' : joinSlash (h :: r) = t := by rw [← hsp]; exact ih
        subst hc
        show '/' :: joinSlash (h :: r) = '/' :: t
        rw [ih']
    · rw [if_neg hc]
      cases hsp : splitSlash t with
      | nil => exact absurd hsp (splitSlash_ne_nil t)
      | cons h r =>
        have ih' : joinSlash (h :: r) = t := by rw [← hsp]; exact ih
        dsimp only
        cases r with
        | nil =>
          show c :: h = c :: t
          have hh : h = t := by simpa [joinSlash] using ih'
          rw [hh]
        | cons e r2 =>
          show (c :: h) ++ '/' :: joinSlash (e :: r2) = c :: t
          have hh : h ++ '/' :: joinSlash (e :: r2) = t := by simpa [joinSlash] using ih'
          rw [List.cons_append, hh]

/-- The one-step unfolding of the providers scan. -/
theorem findProvidersIdx_cons (p : Str) (rest : List Str) :
    findProvidersIdx (p :: rest) =
      if lowerStr p = providersWord then some 0
      else (findProvidersIdx rest).map (fun n => n + 1) := rfl

set_option maxHeartbeats 2000000 in
/-- C10: the build-then-parse round trip.  For every subscription id
whose lowering does not contain the word resourcegroups, every slash-free
group name that does not lowercase to the word providers, slash-free
provider namespace and resource type, and non-empty resource name not
starting with a slash, parsing the built scope string recovers the
Resource variant with exactly those four fields. -/
theorem c10_round_trip (subId g ns ty nm : Str)
    (hsub : containsSub "resourcegroups".toList (lowerStr subId) = false)
    (hg : '/' ∉ g) (hns : '/' ∉ ns) (hty : '/' ∉ ty)
    (hgp : ¬ lowerStr g = providersWord)
    (_hnm : nm ≠ []) (_hnm2 : nm.head? ≠ some '/') :
    parse_lock_scope ("/subscriptions/".toList ++ subId ++ "/resourcegroups/".toList ++ g
      ++ "/providers/".toList ++ ns ++ ['/'] ++ ty ++ ['/'] ++ nm) =
      some (.resource g ns ty nm) := by
  have hP : '/' ∉ "resourcegroups".toList := by decide
  have hA : containsSub "resourcegroups".toList "/subscriptions".toList = false := by decide
  have hpw : '/' ∉ "providers".toList := by decide
  have hrgpat : rgPat = '/' :: ("resourcegroups".toList ++ ['/']) := by decide
  have hprovpat : provPat = '/' :: ("providers".toList ++ ['/']) := by decide
  have hsub15 : "/subscriptions/".toList = "/subscriptions".toList ++ ['/'] := by decide
  have hmap1 : List.map Char.toLower "/subscriptions/".toList = "/subscriptions/".toList := by
    decide
  have hmap2 : List.map Char.toLower "/resourcegroups/".toList = "/resourcegroups/".toList := by
    decide
  have hL1 : ("/subscriptions/".toList : Str).length = 15 := by decide
  have hL2 : ("/resourcegroups/".toList : Str).length = 16 := by decide
  have hL3 : rgPat.length = 16 := by decide
  have hL4 : ("/subscriptions".toList : Str).length = 14 := by decide
  set rest : Str := g ++ "/providers/".toList ++ ns ++ ['/'] ++ ty ++ ['/'] ++ nm with hrest
  set s : Str := "/subscriptions/".toList ++ subId ++ "/resourcegroups/".toList ++ rest with hs
  have hsg : ("/subscriptions/".toList ++ subId ++ "/resourcegroups/".toList ++ g
      ++ "/providers/".toList ++ ns ++ ['/'] ++ ty ++ ['/'] ++ nm) = s := by
    rw [hs, hrest]
    simp [List.append_assoc]
  rw [hsg]
  have hsform : s = ("/subscriptions/".toList ++ subId ++ "/resourcegroups/".toList) ++ rest := by
    simp [hs, List.append_assoc]
  have hlow : lowerStr s = "/subscriptions".toList ++ '/' :: (lowerStr subId
      ++ '/' :: ("resourcegroups".toList ++ '/' :: lowerStr rest)) := by
    simp only [hs, lowerStr, List.map_append, hmap1, hmap2]
    rw [hsub15]
    have hrg2 : "/resourcegroups/".toList = '/' :: ("resourcegroups".toList ++ ['/']) := by decide
    rw [hrg2]
    simp [List.append_assoc]
  have hfind : findSub rgPat (lowerStr s) = some (15 + subId.length) := by
    rw [hlow, hrgpat]
    have := findSub_sandwich "resourcegroups".toList "/subscriptions".toList
      (lowerStr subId) (lowerStr rest) hP hA hsub
    rw [this]
    have hlen : ("/subscriptions".toList : Str).length + 1 + (lowerStr subId).length =
        15 + subId.length := by
      rw [hL4]
      simp [lowerStr]
    rw [hlen]
  have hdrop : s.drop (15 + subId.length + rgPat.length) = rest := by
    rw [hsform]
    apply List.drop_left'
    simp only [List.length_append, hL1, hL2, hL3]
  have hrestform : rest = g ++ '/' :: ("providers".toList
      ++ '/' :: (ns ++ '/' :: (ty ++ '/' :: nm))) := by
    rw [hrest]
    have hpr2 : "/providers/".toList = '/' :: ("providers".toList ++ ['/']) := by decide
    rw [hpr2]
    simp [List.append_assoc]
  have hsplit : splitSlash rest = g :: "providers".toList :: ns :: ty :: splitSlash nm := by
    rw [hrestform, splitSlash_noslash_append _ _ hg, splitSlash_noslash_append _ _ hpw,
      splitSlash_noslash_append _ _ hns, splitSlash_noslash_append _ _ hty]
  have hposnm : 0 < (splitSlash nm).length := List.length_pos.mpr (splitSlash_ne_nil nm)
  have hlen4 : 4 ≤ (splitSlash (s.drop (15 + subId.length + rgPat.length))).length := by
    rw [hdrop, hsplit]
    simp
  have hj3 : 1 + 3 < (splitSlash (s.drop (15 + subId.length + rgPat.length))).length := by
    rw [hdrop, hsplit]
    simp only [List.length_cons]
    omega
  have hcont : containsSub provPat (s.drop (15 + subId.length + rgPat.length)) = true := by
    rw [hdrop]
    apply containsSub_of_isPre provPat rest g.length
    have hrest3 : rest = g ++ (provPat ++ (ns ++ ['/'] ++ ty ++ ['/'] ++ nm)) := by
      rw [hrest]
      simp [List.append_assoc, provPat]
    rw [hrest3, List.drop_left]
    exact isPre_self_append provPat _
  have hidx : findProvidersIdx (splitSlash (s.drop (15 + subId.length + rgPat.length))) =
      some 1 := by
    rw [hdrop, hsplit]
    have hprw : lowerStr "providers".toList = providersWord := by decide
    rw [findProvidersIdx_cons, if_neg hgp, findProvidersIdx_cons, if_pos hprw]
    rfl
  have hmain := parse_res_of s (15 + subId.length) 1 hfind hcont hlen4 hidx hj3
  rw [hdrop, hsplit] at hmain
  have hjoin : joinSlash ((g :: "providers".toList :: ns :: ty :: splitSlash nm).drop (1 + 3)) =
      nm := by
    have h14 : (1 : Nat) + 3 = 4 := rfl
    rw [h14]
    show joinSlash (splitSlash nm) = nm
    exact joinSlash_splitSlash nm
  rw [hjoin] at hmain
  have hg0 : (g :: "providers".toList :: ns :: ty :: splitSlash nm).getD 0 [] = g := rfl
  have hg2 : (g :: "providers".toList :: ns :: ty :: splitSlash nm).getD (1 + 1) [] = ns := rfl
  have hg3 : (g :: "providers".toList :: ns :: ty :: splitSlash nm).getD (1 + 2) [] = ty := rfl
  rw [hg0, hg2, hg3] at hmain
  exact hmain

theorem c10_round_trip_witness :
    parse_lock_scope ("/subscriptions/".toList ++ "sub1".toList ++ "/resourcegroups/".toList
      ++ "rg1".toList ++ "/providers/".toList ++ "Microsoft.Compute".toList ++ ['/']
      ++ "virtualMachines".toList ++ ['/'] ++ "vm1/disk0".toList) =
      some (.resource "rg1".toList "Microsoft.Compute".toList "virtualMachines".toList
        "vm1/disk0".toList) :=
  c10_round_trip "sub1".toList "rg1".toList "Microsoft.Compute".toList "virtualMachines".toList
    "vm1/disk0".toList (by decide) (by decide) (by decide) (by decide) (by decide) (by decide)
    (by decide)

/-- A successful find really is a match at the returned index. -/
theorem findSub_isPre (pat s : Str) (i : Nat) (h : findSub pat s = some i) :
    isPre pat (s.drop i) = true := by
  induction s generalizing i with
  | nil =>
    rw [findSub] at h
    by_cases hp : isPre pat [] = true
    · rw [if_pos hp] at h
      cases h
      simpa using hp
    · rw [if_neg hp] at h
      exact absurd h (by simp)
  | cons c t ih =>
    rw [findSub] at h
    by_cases hp : isPre pat (c :: t) = true
    · rw [if_pos hp] at h
      cases h
      simpa using hp
    · rw [if_neg hp] at h
      cases hf : findSub pat t with
      | none => rw [hf] at h; exact absurd h (by simp)
      | some k =>
        rw [hf] at h
        have hik : i = k + 1 := by simpa using h.symm
        subst hik
        rw [List.drop_succ_cons]
        exact ih k hf
/-- A leading-piece match is an append decomposition. -/
theorem isPre_exists_append (pat z : Str) (h : isPre pat z = true) : ∃ w, z = pat ++ w := by
  induction pat generalizing z with
  | nil => exact ⟨z, rfl⟩
  | cons a p ih =>
    obtain ⟨z', rfl, hz⟩ := isPre_cons_inv a p z h
    obtain ⟨w, rfl⟩ := ih z' hz
    exact ⟨w, rfl⟩

/-- Splitting distributes over a slash that joins two pieces. -/
theorem splitSlash_append_slash (a y : Str) :
    splitSlash (a ++ '/' :: y) = splitSlash a ++ splitSlash y := by
  induction a with
  | nil => rfl
  | cons c a' ih =>
    rw [List.cons_append]
    simp only [splitSlash_cons]
    by_cases hc : c = '/'
    · rw [if_pos hc, if_pos hc, ih]
      rfl
    · rw [if_neg hc, if_neg hc, ih]
      cases hsp : splitSlash a' with
      | nil => exact absurd hsp (splitSlash_ne_nil a')
      | cons h r => rfl

/-- A member whose lowering is the providers word makes the scan succeed. -/
theorem findProvidersIdx_isSome_of_mem (L : List Str) (p : Str)
    (hp : lowerStr p = providersWord) (hm : p ∈ L) : ∃ j, findProvidersIdx L = some j := by
  induction L with
  | nil => cases hm
  | cons q rest ih =>
    rw [findProvidersIdx_cons]
    by_cases hq : lowerStr q = providersWord
    · exact ⟨0, by rw [if_pos hq]⟩
    · rw [if_neg hq]
      have hm' : p ∈ rest := by
        cases hm with
        | head => exact absurd hp hq
        | tail _ hmem => exact hmem
      obtain ⟨j, hj⟩ := ih hm'
      exact ⟨j + 1, by rw [hj]; rfl⟩

/-- Whenever the literal providers keyword occurs in a remainder, the
linear scan over its slash-split finds a providers segment: the scan's
defensive failure branch is unreachable from the membership test. -/
theorem findProvidersIdx_of_containsSub (z : Str) (h : containsSub provPat z = true) :
    ∃ j, findProvidersIdx (splitSlash z) = some j := by
  obtain ⟨i, hi⟩ : ∃ i, findSub provPat z = some i := by
    simpa [containsSub, Option.isSome_iff_exists] using h
  have hpre := findSub_isPre provPat z i hi
  obtain ⟨w, hw⟩ := isPre_exists_append provPat (z.drop i) hpre
  have hz : z = z.take i ++ '/' :: ("providers".toList ++ '/' :: w) := by
    have hpp : provPat ++ w = '/' :: ("providers".toList ++ '/' :: w) := by
      have hpv : provPat = '/' :: ("providers".toList ++ ['/']) := by decide
      rw [hpv]
      simp [List.append_assoc]
    rw [← hpp, ← hw, List.take_append_drop]
  apply findProvidersIdx_isSome_of_mem _ "providers".toList (by decide)
  rw [hz, splitSlash_append_slash, splitSlash_noslash_append _ _ (by decide)]
  exact List.mem_append_right _ (List.mem_cons_self _ _)

/-- C8 amended: parse fails with InvalidScope exactly when the string has
a case-insensitive resourcegroups segment whose original-case remainder
contains the literal providers keyword and either splits into fewer than
4 segments or has its first case-insensitive providers segment followed
by fewer than three further segments; moreover any string without a
resourcegroups segment never fails and is classified as Subscription,
conforming to the subscription shape or not. -/
theorem c8_invalid_scope_characterization :
    (∀ s : Str, parse_lock_scope s = none ↔
      ∃ i : Nat, findSub rgPat (lowerStr s) = some i
        ∧ containsSub provPat (s.drop (i + rgPat.length)) = true
        ∧ ((splitSlash (s.drop (i + rgPat.length))).length < 4
          ∨ ∃ j : Nat, findProvidersIdx (splitSlash (s.drop (i + rgPat.length))) = some j
              ∧ (splitSlash (s.drop (i + rgPat.length))).length ≤ j + 3))
    ∧ (∀ s : Str, containsSub rgPat (lowerStr s) = false →
      parse_lock_scope s = some .subscription) := by
  refine ⟨fun s => ⟨fun h => ?_, fun h => ?_⟩, parse_sub_of⟩
  · unfold parse_lock_scope at h
    by_cases hc : containsSub rgPat (lowerStr s) = true
    · rw [if_pos hc] at h
      unfold parse_resource_group_or_resource_scope at h
      cases hf : findSub rgPat (lowerStr s) with
      | none => rw [containsSub, hf] at hc; simp at hc
      | some i =>
        rw [hf] at h
        dsimp only at h
        by_cases hp : containsSub provPat (s.drop (i + rgPat.length)) = true
        · rw [if_pos hp] at h
          unfold parse_resource_scope at h
          dsimp only at h
          refine ⟨i, rfl, hp, ?_⟩
          by_cases h4 : (splitSlash (s.drop (i + rgPat.length))).length < 4
          · exact Or.inl h4
          · rw [if_neg h4] at h
            obtain ⟨j, hj⟩ := findProvidersIdx_of_containsSub _ hp
            rw [hj] at h
            dsimp only at h
            refine Or.inr ⟨j, hj, ?_⟩
            by_cases h5 : (splitSlash (s.drop (i + rgPat.length))).length ≤ j + 2
            · omega
            · rw [if_neg h5] at h
              by_cases h6 : j + 3 < (splitSlash (s.drop (i + rgPat.length))).length
              · rw [if_pos h6] at h
                simp at h
              · omega
        · rw [if_neg hp] at h
          simp at h
    · rw [if_neg hc] at h
      simp [parse_subscription_scope] at h
  · obtain ⟨i, hf, hp, hcase⟩ := h
    cases hcase with
    | inl h4 => exact parse_none_of_short s i hf hp h4
    | inr hex =>
      obtain ⟨j, hj1, hj2⟩ := hex
      exact parse_none_of_tail s i j hf hp hj1 hj2

theorem c8_invalid_scope_characterization_witness :
    parse_lock_scope "/subscriptions/S/resourcegroups/rg/providers/".toList = none
    ∧ parse_lock_scope "/subscriptions/S/resourcegroups/rg/providers/ns/type".toList = none
    ∧ parse_lock_scope "anything".toList = some .subscription :=
  ⟨(c8_invalid_scope_characterization.1
      "/subscriptions/S/resourcegroups/rg/providers/".toList).mpr
      ⟨16, by decide, by decide, Or.inl (by decide)⟩,
   (c8_invalid_scope_characterization.1
      "/subscriptions/S/resourcegroups/rg/providers/ns/type".toList).mpr
      ⟨16, by decide, by decide, Or.inr ⟨1, by decide, by decide⟩⟩,
   c8_invalid_scope_characterization.2 "anything".toList (by decide)⟩

/-- C10 counterexample: the claim's side condition reads the subscription
id case-sensitively, so subId ResourceGroups is covered by the claim;
but on the built scope the parser's case-insensitive search matches the
resourcegroups keyword across the subId boundary, and the returned
group name is the keyword text instead of the built group name g1. -/
theorem c10_counterexample :
    parse_lock_scope ("/subscriptions/".toList ++ "ResourceGroups".toList
      ++ "/resourcegroups/".toList ++ "g1".toList ++ "/providers/".toList ++ "ns".toList
      ++ ['/'] ++ "ty".toList ++ ['/'] ++ "nm".toList) =
      some (.resource "resourcegroups".toList "ns".toList "ty".toList "nm".toList)
    ∧ containsSub "resourcegroups".toList "ResourceGroups".toList = false
    ∧ "resourcegroups".toList ≠ "g1".toList := by decide
